import Mathlib

/-!
Shallow embedding of the HTTP/1.1 framing core of the repository
(`src/http_request.rs`, `src/http_response.rs`, `src/http_body.rs`,
`src/http_status.rs`).  Byte streams are `List Nat` (each entry a byte
value), Rust `String` is Lean `String`, and the fallible Rust functions
return `Except String`.  The flate2 compressors are external library
code, so the response pipeline is parameterized by the two compressor
functions.  All computable helpers below use structural recursion so
that concrete runs reduce inside the kernel.
-/

namespace HttpServer

/-- ASCII fragment of Rust `char::to_lowercase` used on header names and
encoding tokens (the repository only compares ASCII names). -/
def rustToLowerChar (c : Char) : Char :=
  if 65 ≤ c.toNat && c.toNat ≤ 90 then Char.ofNat (c.toNat + 32) else c

/-- Rust `str::to_lowercase`, restricted to the ASCII mapping. -/
def rustToLower (s : String) : String :=
  String.mk (s.data.map rustToLowerChar)

/-- The Unicode `White_Space` set, which Rust `char::is_whitespace` tests. -/
def isRustWhitespace (c : Char) : Bool :=
  c.toNat ∈ ([0x9, 0xA, 0xB, 0xC, 0xD, 0x20, 0x85, 0xA0, 0x1680,
              0x2028, 0x2029, 0x202F, 0x205F, 0x3000] : List Nat)
  || (0x2000 ≤ c.toNat && c.toNat ≤ 0x200A)

/-- Rust `str::trim_end`. -/
def rustTrimEnd (s : String) : String :=
  String.mk (s.data.reverse.dropWhile isRustWhitespace).reverse

/-- Rust `str::trim`. -/
def rustTrim (s : String) : String :=
  String.mk ((s.data.dropWhile isRustWhitespace).reverse.dropWhile isRustWhitespace).reverse

/-- Helper for the splitters: prepend a character to the first group. -/
def consToHeadGroup (c : Char) : List (List Char) → List (List Char)
  | [] => [[c]]
  | g :: gs => (c :: g) :: gs

/-- Rust `str::split` with a single-character separator, on char lists. -/
def splitOnCharList (sep : Char) : List Char → List (List Char)
  | [] => [[]]
  | c :: rest =>
    if c = sep then [] :: splitOnCharList sep rest
    else consToHeadGroup c (splitOnCharList sep rest)

/-- Rust `str::split(": ")` (the only two-character separator the code uses),
leftmost non-overlapping matches, on char lists. -/
def splitOnColonSpace : List Char → List (List Char)
  | [] => [[]]
  | ':' :: ' ' :: rest => [] :: splitOnColonSpace rest
  | c :: rest => consToHeadGroup c (splitOnColonSpace rest)

/-- Rust `str::contains(": ")`. -/
def containsColonSpace : List Char → Bool
  | [] => false
  | ':' :: ' ' :: _ => true
  | _ :: rest => containsColonSpace rest

/-- Rust `line.split(" ")` on strings. -/
def rustSplitSpace (s : String) : List String :=
  (splitOnCharList ' ' s.data).map String.mk

/-- Rust `value.split(",")` on strings. -/
def rustSplitComma (s : String) : List String :=
  (splitOnCharList ',' s.data).map String.mk

/-- Rust `line.split(": ")` on strings. -/
def rustSplitColonSpace (s : String) : List String :=
  (splitOnColonSpace s.data).map String.mk

/-- Rust `str::parse::<usize>()`: an optional leading `+`, then one or more
ASCII digits, value bounded by `usize::MAX` (64-bit). -/
def parseUsize? (s : String) : Option Nat :=
  let ds := match s.data with
            | '+' :: rest => rest
            | l => l
  if ds.isEmpty then none
  else if ds.all (fun c => 48 ≤ c.toNat && c.toNat ≤ 57) then
    let n := ds.foldl (fun acc c => acc * 10 + (c.toNat - 48)) 0
    if n < 2 ^ 64 then some n else none
  else none

/-- UTF-8 continuation byte. -/
def isContByte (b : Nat) : Bool := 0x80 ≤ b && b < 0xC0

/-- Second-byte constraint of a well-formed three-byte UTF-8 sequence
(excludes overlong forms and surrogates, as Rust `String::from_utf8` does). -/
def utf8ThreeOk (b0 b1 b2 : Nat) : Bool :=
  (if b0 = 0xE0 then 0xA0 ≤ b1 && b1 ≤ 0xBF
   else if b0 = 0xED then 0x80 ≤ b1 && b1 ≤ 0x9F
   else isContByte b1) && isContByte b2

/-- Second-byte constraint of a well-formed four-byte UTF-8 sequence. -/
def utf8FourOk (b0 b1 b2 b3 : Nat) : Bool :=
  (if b0 = 0xF0 then 0x90 ≤ b1 && b1 ≤ 0xBF
   else if b0 = 0xF4 then 0x80 ≤ b1 && b1 ≤ 0x8F
   else isContByte b1) && isContByte b2 && isContByte b3

/-- Cons a decoded character onto a pending decode result. -/
def consChar (c : Char) : Option (List Char) → Option (List Char)
  | none => none
  | some cs => some (c :: cs)

/-- UTF-8 decoding of a byte list (RFC 3629 well-formedness, the exact
acceptance criterion of Rust `String::from_utf8`). -/
def utf8DecodeList : List Nat → Option (List Char)
  | [] => some []
  | b0 :: bs =>
    if b0 < 0x80 then
      consChar (Char.ofNat b0) (utf8DecodeList bs)
    else if b0 < 0xC2 then none
    else if b0 < 0xE0 then
      match bs with
      | b1 :: bs1 =>
        if isContByte b1 then
          consChar (Char.ofNat ((b0 - 0xC0) * 0x40 + (b1 - 0x80))) (utf8DecodeList bs1)
        else none
      | [] => none
    else if b0 < 0xF0 then
      match bs with
      | b1 :: b2 :: bs2 =>
        if utf8ThreeOk b0 b1 b2 then
          consChar (Char.ofNat ((b0 - 0xE0) * 0x1000 + (b1 - 0x80) * 0x40 + (b2 - 0x80)))
            (utf8DecodeList bs2)
        else none
      | _ => none
    else if b0 < 0xF5 then
      match bs with
      | b1 :: b2 :: b3 :: bs3 =>
        if utf8FourOk b0 b1 b2 b3 then
          consChar
            (Char.ofNat ((b0 - 0xF0) * 0x40000 + (b1 - 0x80) * 0x1000 +
              (b2 - 0x80) * 0x40 + (b3 - 0x80)))
            (utf8DecodeList bs3)
        else none
      | _ => none
    else none

/-- Rust `String::from_utf8` on a byte buffer. -/
def utf8Decode? (l : List Nat) : Option String :=
  (utf8DecodeList l).map String.mk

/-- Standard UTF-8 encoding of one scalar value. -/
def utf8EncodeChar (c : Char) : List Nat :=
  let n := c.toNat
  if n < 0x80 then [n]
  else if n < 0x800 then [0xC0 + n / 0x40, 0x80 + n % 0x40]
  else if n < 0x10000 then
    [0xE0 + n / 0x1000, 0x80 + (n / 0x40) % 0x40, 0x80 + n % 0x40]
  else
    [0xF0 + n / 0x40000, 0x80 + (n / 0x1000) % 0x40, 0x80 + (n / 0x40) % 0x40,
     0x80 + n % 0x40]

/-- Rust `str::as_bytes` / `String::into_bytes`: the UTF-8 bytes of a string. -/
def utf8Encode (s : String) : List Nat :=
  (s.data.map utf8EncodeChar).flatten

/-- `BufRead::read_until(b'\n')` on a byte stream: the consumed buffer
(including the delimiter when found) and the remaining stream. -/
def readUntilByte (d : Nat) : List Nat → List Nat × List Nat
  | [] => ([], [])
  | b :: rest =>
    if b = d then ([b], rest)
    else
      let r := readUntilByte d rest
      (b :: r.1, r.2)

/-- Modelled from the spec: `HttpHeaders` lives in `http_headers.rs`, which is
not among the source files; spec sections 3 and 4.4 describe it as a mapping
from header name to value with keys compared case-insensitively, at most one
value per name (a repeated insert overwrites the prior value, last-write-wins),
insertion order preserved for serialization, and the caller-provided casing of
output header names preserved. -/
abbrev HttpHeaders := List (String × String)

/-- Modelled from the spec: the empty `HttpHeaders::new()` map. -/
def HttpHeaders.empty : HttpHeaders := []

/-- Modelled from the spec: case-insensitive lookup in the header map. -/
def HttpHeaders.get (h : HttpHeaders) (k : String) : Option String :=
  (h.find? (fun p => rustToLower p.1 == rustToLower k)).map (fun p => p.2)

/-- Modelled from the spec: last-write-wins insert, keeping insertion order
(the first case-insensitive match is replaced in place, otherwise the new
pair is appended at the end). -/
def HttpHeaders.insert (h : HttpHeaders) (k v : String) : HttpHeaders :=
  match h with
  | [] => [(k, v)]
  | p :: t => if rustToLower p.1 == rustToLower k then (k, v) :: t else p :: insert t k v

/-- `HttpBody` from `src/http_body.rs`. -/
inductive HttpBody
  | Text (text : String)
  | Binary (bytes : List Nat)
deriving DecidableEq

/-- `HttpBody::as_bytes` from `src/http_body.rs`. -/
def HttpBody.as_bytes : HttpBody → List Nat
  | .Text text => utf8Encode text
  | .Binary bytes => bytes

/-- `HttpStatus` from `src/http_status.rs`. -/
structure HttpStatus where
  code : Nat
  text : String
deriving DecidableEq

/-- `HttpStatus::OK`. -/
def HttpStatus.OK : HttpStatus := ⟨200, "OK"⟩

/-- `HttpStatus::BAD_REQUEST`. -/
def HttpStatus.BAD_REQUEST : HttpStatus := ⟨400, "Bad Request"⟩

/-- `HttpStatus::NOT_FOUND`. -/
def HttpStatus.NOT_FOUND : HttpStatus := ⟨404, "Not Found"⟩

/-- `HttpStatus::METHOD_NOT_ALLOWED`. -/
def HttpStatus.METHOD_NOT_ALLOWED : HttpStatus := ⟨405, "Method Not Allowed"⟩

/-- `HttpStatus::INTERNAL_SERVER_ERROR`. -/
def HttpStatus.INTERNAL_SERVER_ERROR : HttpStatus := ⟨500, "Internal Server Error"⟩

/-- `RequestLine` from `src/http_request.rs`. -/
structure RequestLine where
  method : String
  path : String
deriving DecidableEq

/-- `HttpRequest` from `src/http_request.rs`. -/
structure HttpRequest where
  method : String
  path : String
  headers : HttpHeaders
  body : Option HttpBody
deriving DecidableEq

/-- `HttpResponse` from `src/http_response.rs`. -/
structure HttpResponse where
  status : HttpStatus
  headers : HttpHeaders
  body : Option HttpBody
deriving DecidableEq

/-- `ContentEncoding` from `src/http_response.rs`. -/
inductive ContentEncoding
  | None
  | Deflate
  | Gzip
deriving DecidableEq

/-- The derived `Debug` formatting of `ContentEncoding`, which its `Display`
implementation reuses (`write!(f, "{:?}", self)`). -/
def ContentEncoding.debugFmt : ContentEncoding → String
  | .None => "None"
  | .Deflate => "Deflate"
  | .Gzip => "Gzip"

/-! ### Request parsing (`src/http_request.rs`) -/

/-- The token-splitting half of `parse_request_line`: the decoded and
trimmed request line is split on single spaces, exactly three parts are
required, and the method and path are the first two parts. -/
def parse_request_line_str (request_line : String) : Except String RequestLine :=
  let parts := rustSplitSpace request_line
  if parts.length = 3 then
    .ok ⟨parts.getD 0 "", parts.getD 1 ""⟩
  else
    .error ("Invalid request line: " ++ request_line)

/-- `parse_request_line`: read one line (up to `b'\n'`), require valid UTF-8,
trim the end, and split; returns the parsed line and the remaining stream. -/
def parse_request_line (s : List Nat) : Except String (RequestLine × List Nat) :=
  let r := readUntilByte 10 s
  match utf8Decode? r.1 with
  | none => .error "Request line is not valid UTF-8"
  | some line => (parse_request_line_str (rustTrimEnd line)).map (fun rl => (rl, r.2))

/-- The per-line body of the `parse_headers` loop: a line containing `": "`
that splits into exactly two parts is stored with a lowercased key; any other
line is ignored. -/
def processHeaderLine (headers : HttpHeaders) (line : String) : HttpHeaders :=
  if containsColonSpace line.data then
    let parts := rustSplitColonSpace line
    if parts.length = 2 then
      headers.insert (rustToLower (parts.getD 0 "")) (parts.getD 1 "")
    else headers
  else headers

/-- The `parse_headers` loop: read lines until end-of-stream (`read_line`
returns 0 bytes) or a line that trims to empty, folding each other line
through `processHeaderLine`; returns the header map and remaining stream.
`read_line` requires each line to be valid UTF-8.  The `fuel` argument only
makes the recursion structural: every iteration consumes at least one byte,
so any fuel above the stream length behaves like the unbounded loop (see
`parse_headers_core_fuel_irrelevant`). -/
def parse_headers_core : Nat → HttpHeaders → List Nat → Except String (HttpHeaders × List Nat)
  | 0, headers, s => .ok (headers, s)
  | fuel + 1, headers, s =>
    let r := readUntilByte 10 s
    if r.1 = [] then .ok (headers, r.2)
    else
      match utf8Decode? r.1 with
      | none => .error "Failed to read header line"
      | some buffer =>
        if rustTrim buffer = "" then .ok (headers, r.2)
        else parse_headers_core fuel (processHeaderLine headers (rustTrimEnd buffer)) r.2

/-- The `parse_headers` loop entered with an already-accumulated header map. -/
def parse_headers_from (headers : HttpHeaders) (s : List Nat) :
    Except String (HttpHeaders × List Nat) :=
  parse_headers_core (s.length + 1) headers s

/-- `parse_headers`: the loop started from an empty header map. -/
def parse_headers (s : List Nat) : Except String (HttpHeaders × List Nat) :=
  parse_headers_from HttpHeaders.empty s

/-- `parse_body`: `read_exact` of `content_length` bytes wrapped as `Binary`;
a stream with fewer bytes is an error. -/
def parse_body (s : List Nat) (content_length : Nat) : Except String HttpBody :=
  if content_length ≤ s.length then .ok (HttpBody.Binary (s.take content_length))
  else .error "Failed to read body"

/-- `parse` from `src/http_request.rs`: request line, then headers, then — only
when a `content-length` header is present — a body of exactly that many bytes. -/
def parse (s : List Nat) : Except String HttpRequest :=
  match parse_request_line s with
  | .error e => .error e
  | .ok (request_line, s1) =>
    match parse_headers s1 with
    | .error e => .error e
    | .ok (headers, s2) =>
      match headers.get "content-length" with
      | none => .ok ⟨request_line.method, request_line.path, headers, none⟩
      | some v =>
        match parseUsize? v with
        | none => .error "Unable to parse Content-Length header"
        | some n =>
          match parse_body s2 n with
          | .error e => .error e
          | .ok body => .ok ⟨request_line.method, request_line.path, headers, some body⟩

/-! ### Response serialization (`src/http_response.rs`)

The two flate2 encoders are external library code, so `compress_body` and
everything above it take the gzip and deflate compressor functions as
parameters (`gz`, `df`): each maps the input bytes to the compressed bytes or
to an encoder error, exactly the shape of `compress_gzip` / `compress_deflate`. -/

/-- `determine_content_encoding`'s scan loop over the split tokens: the first
token that trims and lowercases to `"gzip"` yields `Gzip`, to `"deflate"`
yields `Deflate`; otherwise continue, defaulting to `None`. -/
def findEncoding : List String → ContentEncoding
  | [] => .None
  | e :: rest =>
    if rustToLower (rustTrim e) = "gzip" then .Gzip
    else if rustToLower (rustTrim e) = "deflate" then .Deflate
    else findEncoding rest

/-- `determine_content_encoding` from `src/http_response.rs`. -/
def determine_content_encoding (request_headers : HttpHeaders) : ContentEncoding :=
  match request_headers.get "accept-encoding" with
  | none => .None
  | some accept_encoding => findEncoding (rustSplitComma accept_encoding)

/-- `determine_content_length` from `src/http_response.rs` (`text.len()` is
the UTF-8 byte length of a Rust `String`). -/
def determine_content_length : Option HttpBody → Nat
  | none => 0
  | some (.Text text) => (utf8Encode text).length
  | some (.Binary bytes) => bytes.length

/-- `determine_content_type` from `src/http_response.rs`. -/
def determine_content_type : Option HttpBody → String
  | none => "text/plain"
  | some (.Text _) => "text/plain"
  | some (.Binary _) => "application/octet-stream"

/-- `set_content_encoding_header` from `src/http_response.rs`. -/
def set_content_encoding_header (response : HttpResponse)
    (content_encoding : ContentEncoding) : HttpResponse :=
  if content_encoding = .None then response
  else
    { response with
      headers := response.headers.insert "Content-Encoding"
        (rustToLower content_encoding.debugFmt) }

/-- `set_content_length_header` from `src/http_response.rs`: the header is
inserted only when the computed length is positive. -/
def set_content_length_header (response : HttpResponse) : HttpResponse :=
  let content_lemgth := determine_content_length response.body
  if content_lemgth > 0 then
    { response with
      headers := response.headers.insert "Content-Length" (toString content_lemgth) }
  else response

/-- `set_content_type_header` from `src/http_response.rs`. -/
def set_content_type_header (response : HttpResponse) : HttpResponse :=
  if (response.headers.get "Content-Type").isSome then response
  else
    { response with
      headers := response.headers.insert "Content-Type"
        (determine_content_type response.body) }

/-- `compress_body` from `src/http_response.rs`, parameterized by the two
flate2 encoder functions. -/
def compress_body (gz df : List Nat → Except String (List Nat))
    (response : HttpResponse) (content_encoding : ContentEncoding) :
    Except String HttpResponse :=
  match response.body with
  | none => .ok response
  | some body =>
    match content_encoding with
    | .None => .ok response
    | .Gzip =>
      match (match body with
             | .Text text => gz (utf8Encode text)
             | .Binary bytes => gz bytes) with
      | .error e => .error e
      | .ok compressed_data =>
        .ok (set_content_encoding_header
          { response with body := some (.Binary compressed_data) } .Gzip)
    | .Deflate =>
      match (match body with
             | .Text text => df (utf8Encode text)
             | .Binary bytes => df bytes) with
      | .error e => .error e
      | .ok compressed_data =>
        .ok (set_content_encoding_header
          { response with body := some (.Binary compressed_data) } .Deflate)

/-- The status line written by `send_status_line`. -/
def status_line (status : HttpStatus) : String :=
  "HTTP/1.1 " ++ toString status.code ++ " " ++ status.text ++ "\r\n"

/-- The header block written by `send_headers`: each pair in iteration order
as `"k: v\r\n"`, then the blank `"\r\n"` line. -/
def headers_string (headers : HttpHeaders) : String :=
  String.join (headers.map (fun p => p.1 ++ ": " ++ p.2 ++ "\r\n"))

/-- The bytes written by `send_body`. -/
def body_bytes : Option HttpBody → List Nat
  | none => []
  | some (.Text text) => utf8Encode text
  | some (.Binary bytes) => bytes

/-- The mutation `send` performs on the response between writing the status
line and writing the headers: compress under the negotiated encoding, then
set the `Content-Length` and `Content-Type` headers. -/
def finalize (gz df : List Nat → Except String (List Nat))
    (request_headers : HttpHeaders) (response : HttpResponse) :
    Except String HttpResponse :=
  match compress_body gz df response (determine_content_encoding request_headers) with
  | .error e => .error e
  | .ok r => .ok (set_content_type_header (set_content_length_header r))

/-- `send` from `src/http_response.rs`, modelling the TCP stream as the list
of bytes written so far: returns the written bytes together with the result.
On a compression failure the error (with its `anyhow` context) is returned
after only the status line has been written. -/
def send (gz df : List Nat → Except String (List Nat))
    (request_headers : HttpHeaders) (response : HttpResponse) :
    List Nat × Except String Unit :=
  let out := utf8Encode (status_line response.status)
  match finalize gz df request_headers response with
  | .error e => (out, .error ("Failed to compress body: " ++ e))
  | .ok r =>
    (out ++ utf8Encode (headers_string r.headers) ++ utf8Encode "\r\n" ++ body_bytes r.body,
     .ok ())

/-! ### Spec-side definitions (for refinement-style claims) -/

/-- The content-negotiation procedure exactly as the spec words it (claim C3):
split the `accept-encoding` value on `','`, trim and lowercase every token,
and take the first token that is exactly `"gzip"` or exactly `"deflate"`,
in client-listed order; otherwise (or with no header) `None`. -/
def negotiatedEncodingSpec (request_headers : HttpHeaders) : ContentEncoding :=
  match request_headers.get "accept-encoding" with
  | none => .None
  | some accept_encoding =>
    let tokens := (rustSplitComma accept_encoding).map (fun t => rustToLower (rustTrim t))
    match tokens.find? (fun t => t == "gzip" || t == "deflate") with
    | none => .None
    | some t => if t = "gzip" then .Gzip else .Deflate

deriving instance DecidableEq for Except

/-! ### Helper lemmas -/

theorem readUntilByte_split (d : Nat) (s : List Nat) :
    (readUntilByte d s).1 ++ (readUntilByte d s).2 = s := by
  induction s with
  | nil => rfl
  | cons b rest ih =>
    by_cases hb : b = d <;> simp [readUntilByte, hb, ih]

theorem readUntilByte_snd_lt (s : List Nat) (h : (readUntilByte 10 s).1 ≠ []) :
    (readUntilByte 10 s).2.length < s.length := by
  have h1 := congrArg List.length (readUntilByte_split 10 s)
  simp only [List.length_append] at h1
  have h2 : (readUntilByte 10 s).1.length ≠ 0 := by simpa using h
  omega

theorem readUntilByte_of_not_mem (d : Nat) (bs rest : List Nat) (h : ¬ d ∈ bs) :
    readUntilByte d (bs ++ d :: rest) = (bs ++ [d], rest) := by
  induction bs with
  | nil => simp [readUntilByte]
  | cons b bs ih =>
    have hb : b ≠ d := fun hbd => h (by simp [hbd])
    have hm : ¬ d ∈ bs := fun hd => h (by simp [hd])
    simp [readUntilByte, hb, ih hm]

theorem parse_headers_core_fuel_irrelevant (f : Nat) :
    ∀ (g : Nat) (hm : HttpHeaders) (s : List Nat), s.length < f → s.length < g →
      parse_headers_core f hm s = parse_headers_core g hm s := by
  induction f with
  | zero => intro g hm s hf hg; omega
  | succ f ih =>
    intro g hm s hf hg
    obtain ⟨g', rfl⟩ : ∃ g', g = g' + 1 := ⟨g - 1, by omega⟩
    simp only [parse_headers_core]
    by_cases hr : (readUntilByte 10 s).1 = []
    · simp [hr]
    · simp only [hr, if_neg, ite_false]
      cases hdec : utf8Decode? (readUntilByte 10 s).1 with
      | none => rfl
      | some buffer =>
        by_cases ht : rustTrim buffer = ""
        · simp [ht]
        · simp only [ht, ite_false]
          have hlen := readUntilByte_snd_lt s hr
          exact ih _ _ _ (by omega) (by omega)

theorem char_toNat_ofNat_valid (n : Nat) (h : n < 0xD800) : (Char.ofNat n).toNat = n := by
  have hv : Nat.isValidChar n := Or.inl h
  simp [Char.ofNat, hv, Char.toNat, Char.ofNatAux, UInt32.toNat, UInt32.ofNatCore]

theorem rustToLowerChar_idem (c : Char) :
    rustToLowerChar (rustToLowerChar c) = rustToLowerChar c := by
  unfold rustToLowerChar
  by_cases h : (65 ≤ c.toNat && c.toNat ≤ 90) = true
  · rw [if_pos h]
    have h' : 65 ≤ c.toNat ∧ c.toNat ≤ 90 := by simpa using h
    have ht : (Char.ofNat (c.toNat + 32)).toNat = c.toNat + 32 :=
      char_toNat_ofNat_valid _ (by omega)
    rw [ht, if_neg (by simp; omega)]
  · rw [if_neg h, if_neg h]

theorem map_rustToLowerChar_idem (l : List Char) :
    List.map rustToLowerChar (List.map rustToLowerChar l) = List.map rustToLowerChar l := by
  induction l with
  | nil => rfl
  | cons c l ih => simp [ih, rustToLowerChar_idem]

theorem rustToLower_idem (s : String) : rustToLower (rustToLower s) = rustToLower s := by
  show String.mk (List.map rustToLowerChar (List.map rustToLowerChar s.data)) = _
  rw [map_rustToLowerChar_idem]
  rfl

theorem find?_cons_true (α : Type) (pred : α → Bool) (x : α)
    (l : List α) (hx : pred x = true) :
    List.find? pred (x :: l) = some x := by
  simp only [List.find?, hx]

theorem find?_cons_false (α : Type) (pred : α → Bool) (x : α)
    (l : List α) (hx : pred x = false) :
    List.find? pred (x :: l) = List.find? pred l := by
  simp only [List.find?, hx]

theorem HttpHeaders.get_insert_self (h : HttpHeaders) (k v : String) :
    (h.insert k v).get k = some v := by
  induction h with
  | nil =>
    unfold HttpHeaders.insert HttpHeaders.get
    rw [find?_cons_true (String × String) _ _ _ (by simp)]
    rfl
  | cons p t ih =>
    by_cases hp : (rustToLower p.1 == rustToLower k) = true
    · unfold HttpHeaders.insert HttpHeaders.get
      rw [if_pos hp, find?_cons_true (String × String) _ _ _ (by simp)]
      rfl
    · have hp' : (rustToLower p.1 == rustToLower k) = false := by simpa using hp
      unfold HttpHeaders.insert HttpHeaders.get
      rw [if_neg hp, find?_cons_false (String × String) _ _ _ hp']
      exact ih

theorem HttpHeaders.get_insert_of_ne (h : HttpHeaders) (k v k2 : String)
    (hne : rustToLower k2 ≠ rustToLower k) :
    (h.insert k v).get k2 = h.get k2 := by
  have hkv : (fun (p : String × String) => rustToLower p.1 == rustToLower k2) (k, v) = false := by
    simp
    exact fun hkk => hne hkk.symm
  induction h with
  | nil =>
    unfold HttpHeaders.insert HttpHeaders.get
    rw [find?_cons_false (String × String) _ _ _ hkv]
  | cons p t ih =>
    by_cases hp : (rustToLower p.1 == rustToLower k) = true
    · have hpk : rustToLower p.1 = rustToLower k := by simpa using hp
      have hp2 : (fun (q : String × String) => rustToLower q.1 == rustToLower k2) p = false := by
        simp [hpk]
        exact fun hkk => hne hkk.symm
      unfold HttpHeaders.insert HttpHeaders.get
      rw [if_pos hp, find?_cons_false (String × String) _ _ _ hkv, find?_cons_false (String × String) _ _ _ hp2]
    · unfold HttpHeaders.insert HttpHeaders.get
      rw [if_neg hp]
      by_cases hp2 : (fun (q : String × String) => rustToLower q.1 == rustToLower k2) p = true
      · rw [find?_cons_true (String × String) _ _ _ hp2, find?_cons_true (String × String) _ _ _ hp2]
      · have hp2' : (fun (q : String × String) => rustToLower q.1 == rustToLower k2) p = false := by
          simpa using hp2
        rw [find?_cons_false (String × String) _ _ _ hp2', find?_cons_false (String × String) _ _ _ hp2']
        exact ih

theorem HttpHeaders.mem_insert (h : HttpHeaders) (k v : String) (p : String × String)
    (hp : p ∈ h.insert k v) : p = (k, v) ∨ p ∈ h := by
  induction h with
  | nil => simpa [HttpHeaders.insert] using hp
  | cons q t ih =>
    rw [HttpHeaders.insert] at hp
    by_cases hq : (rustToLower q.1 == rustToLower k) = true
    · rw [if_pos hq] at hp
      rcases List.mem_cons.mp hp with h1 | h2
      · exact Or.inl h1
      · exact Or.inr (List.mem_cons_of_mem _ h2)
    · rw [if_neg hq] at hp
      rcases List.mem_cons.mp hp with h1 | h2
      · exact Or.inr (h1 ▸ List.mem_cons_self _ _)
      · rcases ih h2 with h3 | h4
        · exact Or.inl h3
        · exact Or.inr (List.mem_cons_of_mem _ h4)

theorem findEncoding_eq_find? (l : List String) :
    findEncoding l =
      (match (l.map fun t => rustToLower (rustTrim t)).find?
          (fun t => t == "gzip" || t == "deflate") with
       | none => ContentEncoding.None
       | some t => if t = "gzip" then ContentEncoding.Gzip else ContentEncoding.Deflate) := by
  induction l with
  | nil => rfl
  | cons e rest ih =>
    by_cases hg : rustToLower (rustTrim e) = "gzip"
    · rw [findEncoding, if_pos hg, List.map_cons, hg,
        find?_cons_true String _ _ _ (by simp)]
      simp
    · by_cases hd : rustToLower (rustTrim e) = "deflate"
      · rw [findEncoding, if_neg hg, if_pos hd, List.map_cons, hd,
          find?_cons_true String _ _ _ (by simp)]
        simp
      · rw [findEncoding, if_neg hg, if_neg hd, List.map_cons,
          find?_cons_false String _ _ _ (by simp [hg, hd]), ih]

theorem set_content_encoding_header_of_ne (r : HttpResponse) (ce : ContentEncoding)
    (hce : ce ≠ .None) :
    set_content_encoding_header r ce =
      { r with headers := r.headers.insert "Content-Encoding" (rustToLower ce.debugFmt) } := by
  unfold set_content_encoding_header
  rw [if_neg hce]

theorem set_content_length_header_pos (r : HttpResponse)
    (h : 0 < determine_content_length r.body) :
    set_content_length_header r =
      { r with
        headers := r.headers.insert "Content-Length"
          (toString (determine_content_length r.body)) } := by
  unfold set_content_length_header
  rw [if_pos h]

theorem set_content_type_header_get_other (r : HttpResponse) (k : String)
    (hk : rustToLower k ≠ rustToLower "Content-Type") :
    (set_content_type_header r).headers.get k = r.headers.get k := by
  unfold set_content_type_header
  by_cases hs : (r.headers.get "Content-Type").isSome
  · rw [if_pos hs]
  · rw [if_neg hs]
    exact HttpHeaders.get_insert_of_ne _ _ _ _ hk

theorem set_content_length_header_body (r : HttpResponse) :
    (set_content_length_header r).body = r.body := by
  unfold set_content_length_header
  by_cases h : determine_content_length r.body > 0 <;> simp [h]

theorem set_content_type_header_body (r : HttpResponse) :
    (set_content_type_header r).body = r.body := by
  unfold set_content_type_header
  split <;> rfl

theorem set_content_encoding_header_body (r : HttpResponse) (ce : ContentEncoding) :
    (set_content_encoding_header r ce).body = r.body := by
  unfold set_content_encoding_header
  split <;> rfl

theorem processHeaderLine_lowercase (hm : HttpHeaders) (line : String)
    (hlow : ∀ p ∈ hm, rustToLower p.1 = p.1) :
    ∀ p ∈ processHeaderLine hm line, rustToLower p.1 = p.1 := by
  intro p hp
  unfold processHeaderLine at hp
  by_cases hc : containsColonSpace line.data = true
  · rw [if_pos hc] at hp
    by_cases hlen : (rustSplitColonSpace line).length = 2
    · rw [if_pos hlen] at hp
      rcases HttpHeaders.mem_insert _ _ _ _ hp with h1 | h2
      · rw [h1]
        exact rustToLower_idem _
      · exact hlow p h2
    · rw [if_neg hlen] at hp
      exact hlow p hp
  · rw [if_neg hc] at hp
    exact hlow p hp

theorem parse_headers_core_succ (fuel : Nat) (hm : HttpHeaders) (s : List Nat) :
    parse_headers_core (fuel + 1) hm s =
      (let r := readUntilByte 10 s
       if r.1 = [] then .ok (hm, r.2)
       else
         match utf8Decode? r.1 with
         | none => .error "Failed to read header line"
         | some buffer =>
           if rustTrim buffer = "" then .ok (hm, r.2)
           else parse_headers_core fuel (processHeaderLine hm (rustTrimEnd buffer)) r.2) :=
  rfl

theorem parse_headers_core_lowercase (fuel : Nat) :
    ∀ (hm : HttpHeaders) (s : List Nat) (hm' : HttpHeaders) (s' : List Nat),
      (∀ p ∈ hm, rustToLower p.1 = p.1) →
      parse_headers_core fuel hm s = .ok (hm', s') →
      ∀ p ∈ hm', rustToLower p.1 = p.1 := by
  induction fuel with
  | zero =>
    intro hm s hm' s' hlow hok
    unfold parse_headers_core at hok
    injection hok with hok
    injection hok with h1 h2
    exact h1 ▸ hlow
  | succ fuel ih =>
    intro hm s hm' s' hlow hok
    rw [parse_headers_core_succ] at hok
    simp only [] at hok
    split at hok
    · injection hok with hok
      injection hok with h1 h2
      exact h1 ▸ hlow
    · split at hok
      · exact absurd hok (by simp)
      · split at hok
        · injection hok with hok
          injection hok with h1 h2
          exact h1 ▸ hlow
        · exact ih _ _ _ _ (processHeaderLine_lowercase hm _ hlow) hok

theorem parse_headers_from_step (hm : HttpHeaders) (bs rest : List Nat) (line : String)
    (hnb : ¬ 10 ∈ bs) (hdec : utf8Decode? (bs ++ [10]) = some line)
    (hne : rustTrim line ≠ "") :
    parse_headers_from hm (bs ++ 10 :: rest) =
      parse_headers_from (processHeaderLine hm (rustTrimEnd line)) rest := by
  unfold parse_headers_from
  rw [parse_headers_core_succ, readUntilByte_of_not_mem 10 bs rest hnb]
  have hr : ¬ ((bs ++ [10] : List Nat) = []) := by simp
  simp only [hdec, if_neg hr, if_neg hne]
  exact parse_headers_core_fuel_irrelevant _ _ _ _ (by simp; omega) (by omega)

theorem parse_body_binary (s : List Nat) (n : Nat) (b : HttpBody)
    (h : parse_body s n = .ok b) : ∃ bytes, b = .Binary bytes := by
  unfold parse_body at h
  split at h
  · injection h with h
    exact ⟨_, h.symm⟩
  · exact absurd h (by simp)

theorem compress_body_ok_of_encoding (gz df : List Nat → Except String (List Nat))
    (r : HttpResponse) (b : HttpBody) (out : List Nat) (ce : ContentEncoding)
    (hb : r.body = some b)
    (hok : (ce = .Gzip ∧ gz b.as_bytes = .ok out) ∨ (ce = .Deflate ∧ df b.as_bytes = .ok out)) :
    compress_body gz df r ce =
      .ok (set_content_encoding_header { r with body := some (.Binary out) } ce) := by
  rcases hok with ⟨hce, hco⟩ | ⟨hce, hco⟩ <;> subst hce <;>
    simp only [compress_body, hb] <;> cases b <;>
    simp only [HttpBody.as_bytes] at hco <;> simp [hco]

theorem compress_body_error_of_encoding (gz df : List Nat → Except String (List Nat))
    (r : HttpResponse) (b : HttpBody) (e : String) (ce : ContentEncoding)
    (hb : r.body = some b)
    (hko : (ce = .Gzip ∧ gz b.as_bytes = .error e)
         ∨ (ce = .Deflate ∧ df b.as_bytes = .error e)) :
    compress_body gz df r ce = .error e := by
  rcases hko with ⟨hce, hco⟩ | ⟨hce, hco⟩ <;> subst hce <;>
    simp only [compress_body, hb] <;> cases b <;>
    simp only [HttpBody.as_bytes] at hco <;> simp [hco]

theorem finalize_of_compress_ok (gz df : List Nat → Except String (List Nat))
    (request_headers : HttpHeaders) (r r1 : HttpResponse) (out : List Nat) (name : String)
    (hcompress : compress_body gz df r (determine_content_encoding request_headers) = .ok r1)
    (hr1b : r1.body = some (.Binary out))
    (hout : out ≠ [])
    (hr1h : r1.headers.get "Content-Encoding" = some name) :
    ∃ r', finalize gz df request_headers r = .ok r'
      ∧ r'.body = some (HttpBody.Binary out)
      ∧ r'.headers.get "Content-Encoding" = some name
      ∧ r'.headers.get "Content-Length" = some (toString out.length) := by
  have hpos : 0 < determine_content_length r1.body := by
    rw [hr1b]
    exact List.length_pos.mpr hout
  have hcl : determine_content_length r1.body = out.length := by
    rw [hr1b]
    rfl
  refine ⟨set_content_type_header (set_content_length_header r1), ?_, ?_, ?_, ?_⟩
  · unfold finalize
    rw [hcompress]
  · rw [set_content_type_header_body, set_content_length_header_body, hr1b]
  · rw [set_content_type_header_get_other _ _ (by decide),
      set_content_length_header_pos _ hpos]
    show (r1.headers.insert "Content-Length" _).get "Content-Encoding" = _
    rw [HttpHeaders.get_insert_of_ne _ _ _ _ (by decide), hr1h]
  · rw [set_content_type_header_get_other _ _ (by decide),
      set_content_length_header_pos _ hpos]
    show (r1.headers.insert "Content-Length" (toString (determine_content_length r1.body))).get
        "Content-Length" = _
    rw [HttpHeaders.get_insert_self, hcl]

/-! ### Claim theorems -/

/-- C1 (code-bug evidence): contrary to the claim that `Content-Length` is
always emitted (`0` when there is no body), `set_content_length_header`
inserts the header only when the computed length is positive, so serializing
a bodiless `200 OK` response produces a header map whose only entry is the
defaulted `Content-Type`, with no `Content-Length` at all, and the bytes
written to the stream contain no `Content-Length: 0` line. -/
theorem c1_content_length_omitted_when_no_body :
    finalize (fun bs => .ok bs) (fun bs => .ok bs) HttpHeaders.empty
        ⟨HttpStatus.OK, HttpHeaders.empty, none⟩ =
      .ok ⟨HttpStatus.OK, [("Content-Type", "text/plain")], none⟩
    ∧ HttpHeaders.get [("Content-Type", "text/plain")] "Content-Length" = none
    ∧ send (fun bs => .ok bs) (fun bs => .ok bs) HttpHeaders.empty
        ⟨HttpStatus.OK, HttpHeaders.empty, none⟩ =
      (utf8Encode "HTTP/1.1 200 OK\r\nContent-Type: text/plain\r\n\r\n", .ok ()) := by
  decide

/-- C2 counterexample: for a response with a `Binary` body and no
content-type set by the handler, the serializer sets `Content-Type` to
`application/octet-stream`, refuting the claim that it always defaults to
`text/plain` regardless of the body's variant. -/
theorem c2_counterexample :
    (set_content_type_header
        ⟨HttpStatus.OK, HttpHeaders.empty, some (.Binary [104, 105])⟩).headers.get
        "Content-Type" = some "application/octet-stream"
    ∧ ¬ ((set_content_type_header
        ⟨HttpStatus.OK, HttpHeaders.empty, some (.Binary [104, 105])⟩).headers.get
        "Content-Type" = some "text/plain") := by
  decide

/-- C2 (amended): for every response whose handler did not set a
content-type header, the serializer sets `Content-Type` according to the
body at that point: `text/plain` when the body is absent or `Text`, and
`application/octet-stream` when it is `Binary`. -/
theorem c2_content_type_default (r : HttpResponse)
    (hct : r.headers.get "Content-Type" = none) :
    (set_content_type_header r).headers.get "Content-Type" =
      some (match r.body with
            | some (HttpBody.Binary _) => "application/octet-stream"
            | _ => "text/plain") := by
  unfold set_content_type_header
  rw [hct, if_neg (by simp), HttpHeaders.get_insert_self]
  unfold determine_content_type
  cases hb : r.body with
  | none => rfl
  | some b => cases b <;> rfl

/-- C2 witness: a `Text` body with no content-type set defaults to
`text/plain`. -/
theorem c2_content_type_default_witness :
    (set_content_type_header
        ⟨HttpStatus.OK, HttpHeaders.empty, some (.Text "hi")⟩).headers.get
        "Content-Type" = some "text/plain" :=
  c2_content_type_default ⟨HttpStatus.OK, HttpHeaders.empty, some (.Text "hi")⟩ (by decide)

/-- C3: the negotiated encoding equals the spec-side procedure: split the
`accept-encoding` value on `','`, trim and lowercase each token, and take
the first token in client-listed order that is exactly `"gzip"` or exactly
`"deflate"`; if no token matches, or the header is absent, the result is
`None`. -/
theorem c3_negotiation_matches_spec (request_headers : HttpHeaders) :
    determine_content_encoding request_headers = negotiatedEncodingSpec request_headers := by
  unfold determine_content_encoding negotiatedEncodingSpec
  cases h : request_headers.get "accept-encoding" with
  | none => rfl
  | some v => exact findEncoding_eq_find? (rustSplitComma v)

/-- C5: splitting a request line on single spaces must yield exactly three
tokens; when it does, parsing yields the first token as method and the
second as path (the version token is not retained); any other token count
is a fatal parse error whose message names the offending line. -/
theorem c5_request_line_three_tokens (line : String) :
    ((rustSplitSpace line).length = 3 →
      parse_request_line_str line =
        .ok ⟨(rustSplitSpace line).getD 0 "", (rustSplitSpace line).getD 1 ""⟩)
    ∧ ((rustSplitSpace line).length ≠ 3 →
      parse_request_line_str line = .error ("Invalid request line: " ++ line)) := by
  constructor <;> intro h <;> simp only [parse_request_line_str]
  · rw [if_pos h]
  · rw [if_neg h]

/-- C5 witness: `"GET /idx HTTP/1.1"` parses to method `GET`, path `/idx`;
`"GET /idx"` fails with an error naming the line. -/
theorem c5_request_line_three_tokens_witness :
    parse_request_line_str "GET /idx HTTP/1.1" = .ok ⟨"GET", "/idx"⟩
    ∧ parse_request_line_str "GET /idx" = .error "Invalid request line: GET /idx" :=
  ⟨(c5_request_line_three_tokens "GET /idx HTTP/1.1").1 (by decide),
   (c5_request_line_three_tokens "GET /idx").2 (by decide)⟩

/-- C10: every body of a successfully parsed request is the `Binary`
variant (never `Text`), so the serializer's content-type default for such
a body is the octet-stream path. -/
theorem c10_parsed_body_binary (s : List Nat) (req : HttpRequest) (b : HttpBody)
    (hp : parse s = .ok req) (hb : req.body = some b) :
    ∃ bytes, b = HttpBody.Binary bytes ∧
      determine_content_type (some b) = "application/octet-stream" := by
  unfold parse at hp
  split at hp
  · exact absurd hp (by simp)
  · split at hp
    · exact absurd hp (by simp)
    · split at hp
      · injection hp with hp
        rw [← hp] at hb
        exact absurd hb (by simp)
      · split at hp
        · exact absurd hp (by simp)
        · split at hp
          · exact absurd hp (by simp)
          · next body heq =>
            obtain ⟨bytes, hbytes⟩ := parse_body_binary _ _ _ heq
            injection hp with hp
            rw [← hp] at hb
            simp only [HttpRequest.body] at hb
            injection hb with hb
            exact ⟨bytes, by rw [← hb, hbytes], by rw [← hb, hbytes]; rfl⟩

/-- C4: after the request line and headers have been consumed, a present
`content-length` header must parse as a non-negative integer (failure is a
fatal error); exactly that many bytes are then taken from the remaining
stream and wrapped as `Binary`, a stream with fewer bytes is a fatal error,
and an absent header leaves the body `None`. -/
theorem c4_content_length_body (s s1 s2 : List Nat) (rl : RequestLine) (hm : HttpHeaders)
    (hrl : parse_request_line s = .ok (rl, s1))
    (hh : parse_headers s1 = .ok (hm, s2)) :
    (hm.get "content-length" = none → parse s = .ok ⟨rl.method, rl.path, hm, none⟩)
    ∧ (∀ v, hm.get "content-length" = some v → parseUsize? v = none →
        parse s = .error "Unable to parse Content-Length header")
    ∧ (∀ v n, hm.get "content-length" = some v → parseUsize? v = some n → n ≤ s2.length →
        parse s = .ok ⟨rl.method, rl.path, hm, some (.Binary (s2.take n))⟩)
    ∧ (∀ v n, hm.get "content-length" = some v → parseUsize? v = some n → s2.length < n →
        parse s = .error "Failed to read body") := by
  refine ⟨?_, ?_, ?_, ?_⟩
  · intro hcl
    simp only [parse, hrl, hh, hcl]
  · intro v hcl hpu
    simp only [parse, hrl, hh, hcl, hpu]
  · intro v n hcl hpu hle
    simp only [parse, hrl, hh, hcl, hpu, parse_body]
    rw [if_pos hle]
  · intro v n hcl hpu hgt
    simp only [parse, hrl, hh, hcl, hpu, parse_body]
    rw [if_neg (by omega)]

/-- C4 witness: a request with `content-length: 2` followed by exactly two
body bytes parses to a `Binary` body of those two bytes. -/
theorem c4_content_length_body_witness :
    parse (utf8Encode "A B C\ncontent-length: 2\n\nxy") =
      .ok ⟨"A", "B", [("content-length", "2")], some (.Binary [120, 121])⟩ :=
  (c4_content_length_body (utf8Encode "A B C\ncontent-length: 2\n\nxy")
      (utf8Encode "content-length: 2\n\nxy") [120, 121] ⟨"A", "B"⟩
      [("content-length", "2")] (by decide) (by decide)).2.2.1 "2" 2
    (by decide) (by decide) (by decide)

/-- C8: a header line lacking the `": "` separator is silently ignored
(parsing simply continues on the rest of the stream with the header map
unchanged, not an error), while a line containing the separator that splits
into exactly two parts is stored in the header map under its lowercased key. -/
theorem c8_malformed_header_line (hm : HttpHeaders) (bs rest : List Nat) (line : String)
    (hnb : ¬ 10 ∈ bs) (hdec : utf8Decode? (bs ++ [10]) = some line)
    (hne : rustTrim line ≠ "") :
    (containsColonSpace (rustTrimEnd line).data = false →
      parse_headers_from hm (bs ++ 10 :: rest) = parse_headers_from hm rest)
    ∧ (∀ k v, containsColonSpace (rustTrimEnd line).data = true →
        rustSplitColonSpace (rustTrimEnd line) = [k, v] →
        parse_headers_from hm (bs ++ 10 :: rest) =
          parse_headers_from (hm.insert (rustToLower k) v) rest) := by
  constructor
  · intro hc
    rw [parse_headers_from_step hm bs rest line hnb hdec hne]
    unfold processHeaderLine
    rw [if_neg (by simp [hc])]
  · intro k v hc hsplit
    rw [parse_headers_from_step hm bs rest line hnb hdec hne]
    unfold processHeaderLine
    rw [if_pos hc]
    simp [hsplit]

/-- C8 witness: the line `junk` is skipped with the map unchanged; the line
`Foo: Bar` is stored as `foo → Bar`. -/
theorem c8_malformed_header_line_witness :
    parse_headers_from HttpHeaders.empty ([106, 117, 110, 107] ++ 10 :: [101, 116, 99]) =
      parse_headers_from HttpHeaders.empty [101, 116, 99]
    ∧ parse_headers_from HttpHeaders.empty
        ([70, 111, 111, 58, 32, 66, 97, 114] ++ 10 :: [101, 116, 99]) =
      parse_headers_from (HttpHeaders.insert HttpHeaders.empty "foo" "Bar") [101, 116, 99] :=
  ⟨(c8_malformed_header_line HttpHeaders.empty [106, 117, 110, 107] [101, 116, 99] "junk\n"
      (by decide) (by decide) (by decide)).1 (by decide),
   (c8_malformed_header_line HttpHeaders.empty [70, 111, 111, 58, 32, 66, 97, 114]
      [101, 116, 99] "Foo: Bar\n" (by decide) (by decide) (by decide)).2 "Foo" "Bar"
      (by decide) (by decide)⟩

/-- C9: every header name stored in the header map of a successfully parsed
request is already lowercase (lowercasing it again changes nothing), so
lookups after parsing are insensitive to the casing the client used. -/
theorem c9_header_keys_lowercase (s : List Nat) (req : HttpRequest)
    (hp : parse s = .ok req) :
    ∀ p ∈ req.headers, rustToLower p.1 = p.1 := by
  unfold parse at hp
  split at hp
  · exact absurd hp (by simp)
  · next rl s1 heqrl =>
    split at hp
    · exact absurd hp (by simp)
    · next hmv s2 heqh =>
      have hmlow : ∀ p ∈ hmv, rustToLower p.1 = p.1 :=
        parse_headers_core_lowercase (s1.length + 1) HttpHeaders.empty s1 hmv
          s2 (by simp [HttpHeaders.empty]) heqh
      split at hp
      · injection hp with hp
        rw [← hp]
        exact hmlow
      · split at hp
        · exact absurd hp (by simp)
        · split at hp
          · exact absurd hp (by simp)
          · injection hp with hp
            rw [← hp]
            exact hmlow

/-- C9 witness: the client-sent name `Foo` is stored as the lowercase `foo`. -/
theorem c9_header_keys_lowercase_witness : rustToLower "foo" = "foo" :=
  c9_header_keys_lowercase (utf8Encode "A B C\nFoo: Bar\n\n")
    ⟨"A", "B", [("foo", "Bar")], none⟩ (by decide) ("foo", "Bar") (by decide)

/-- C10 witness: a request with `content-length: 2` and body bytes `xy`
parses to a `Binary` body. -/
theorem c10_parsed_body_binary_witness :
    ∃ bytes, HttpBody.Binary [120, 121] = HttpBody.Binary bytes ∧
      determine_content_type (some (HttpBody.Binary [120, 121])) =
        "application/octet-stream" :=
  c10_parsed_body_binary (utf8Encode "A B C\ncontent-length: 2\n\nxy")
    ⟨"A", "B", [("content-length", "2")], some (.Binary [120, 121])⟩
    (HttpBody.Binary [120, 121]) (by decide) (by decide)

/-- C6: for a response with a non-empty body whose negotiated encoding is
gzip or deflate, the serializer replaces the body with its compressed byte
form, sets `Content-Encoding` to the lowercase encoding name, and emits a
`Content-Length` equal to the compressed byte length (the hypothesis
`hout` records that the flate2 encoders never produce empty output). -/
theorem c6_compression_replaces_body (gz df : List Nat → Except String (List Nat))
    (request_headers : HttpHeaders) (r : HttpResponse) (b : HttpBody) (out : List Nat)
    (hb : r.body = some b) (hbne : b.as_bytes ≠ [])
    (hcomp : (determine_content_encoding request_headers = .Gzip ∧ gz b.as_bytes = .ok out)
           ∨ (determine_content_encoding request_headers = .Deflate ∧ df b.as_bytes = .ok out))
    (hout : out ≠ []) :
    ∃ r', finalize gz df request_headers r = .ok r'
      ∧ r'.body = some (HttpBody.Binary out)
      ∧ r'.headers.get "Content-Encoding" =
          some (rustToLower (determine_content_encoding request_headers).debugFmt)
      ∧ r'.headers.get "Content-Length" = some (toString out.length) := by
  have hcompress := compress_body_ok_of_encoding gz df r b out
    (determine_content_encoding request_headers) hb
    (by rcases hcomp with ⟨hce, hco⟩ | ⟨hce, hco⟩
        · exact Or.inl ⟨hce, hco⟩
        · exact Or.inr ⟨hce, hco⟩)
  have hnone : determine_content_encoding request_headers ≠ .None := by
    rcases hcomp with ⟨hce, _⟩ | ⟨hce, _⟩ <;> rw [hce] <;> intro hcontra <;> cases hcontra
  apply finalize_of_compress_ok gz df request_headers r _ out _ hcompress
  · rw [set_content_encoding_header_body]
  · exact hout
  · rw [set_content_encoding_header_of_ne _ _ hnone]
    exact HttpHeaders.get_insert_self _ _ _

/-- C6 witness: a gzip-negotiated `Text` body is replaced by the compressed
bytes, with `Content-Encoding: gzip` and `Content-Length` equal to the
compressed length `3`, not the original length `2`. -/
theorem c6_compression_replaces_body_witness :
    ∃ r', finalize (fun l => Except.ok (0 :: l)) (fun bs => Except.ok bs)
        [("accept-encoding", "gzip")]
        ⟨HttpStatus.OK, HttpHeaders.empty, some (.Text "hi")⟩ = .ok r'
      ∧ r'.body = some (HttpBody.Binary [0, 104, 105])
      ∧ r'.headers.get "Content-Encoding" = some "gzip"
      ∧ r'.headers.get "Content-Length" = some "3" :=
  c6_compression_replaces_body (fun l => Except.ok (0 :: l)) (fun bs => Except.ok bs)
    [("accept-encoding", "gzip")] ⟨HttpStatus.OK, HttpHeaders.empty, some (.Text "hi")⟩
    (.Text "hi") [0, 104, 105] rfl (by decide) (Or.inl ⟨by decide, by decide⟩) (by decide)

/-- C7: when compression of a present response body fails, `send` returns
the encoder's error (wrapped in the compression-failure context) instead of
silently sending an uncompressed body, and the bytes written to the stream
stop at the status line — nothing further is written after the error. -/
theorem c7_compression_failure_fatal (gz df : List Nat → Except String (List Nat))
    (request_headers : HttpHeaders) (r : HttpResponse) (b : HttpBody) (e : String)
    (hb : r.body = some b)
    (hfail : (determine_content_encoding request_headers = .Gzip ∧ gz b.as_bytes = .error e)
           ∨ (determine_content_encoding request_headers = .Deflate ∧ df b.as_bytes = .error e)) :
    send gz df request_headers r =
      (utf8Encode (status_line r.status), .error ("Failed to compress body: " ++ e)) := by
  have hcompress := compress_body_error_of_encoding gz df r b e
    (determine_content_encoding request_headers) hb
    (by rcases hfail with ⟨hce, hco⟩ | ⟨hce, hco⟩
        · exact Or.inl ⟨hce, hco⟩
        · exact Or.inr ⟨hce, hco⟩)
  simp only [send, finalize, hcompress]

/-- C7 witness: a failing gzip encoder aborts the send with the wrapped
error after exactly the status-line bytes have been written. -/
theorem c7_compression_failure_fatal_witness :
    send (fun _ => Except.error "boom") (fun bs => Except.ok bs)
        [("accept-encoding", "gzip")]
        ⟨HttpStatus.OK, HttpHeaders.empty, some (.Text "x")⟩ =
      (utf8Encode "HTTP/1.1 200 OK\r\n", .error "Failed to compress body: boom") :=
  c7_compression_failure_fatal (fun _ => Except.error "boom") (fun bs => Except.ok bs)
    [("accept-encoding", "gzip")] ⟨HttpStatus.OK, HttpHeaders.empty, some (.Text "x")⟩
    (.Text "x") "boom" rfl (Or.inl ⟨by decide, by decide⟩)

end HttpServer
